import Mathlib

/-!
Verification of the widget store (`src/lib/storage.ts`) of the
text-widget manager.

Shallow embedding notes:

* JavaScript strings are modelled as lists of UTF-16 code units
  (`List Nat`); `String.prototype.slice`, the `\s` regex class, control
  characters and surrogate pairs all operate on code units exactly as in
  the source.
* JavaScript runtime values reaching the store are modelled by `JsVal`
  (undefined, null, booleans, integers, strings, `Date` objects, arrays,
  plain objects).  `Date` objects carry `some t` (milliseconds since the
  epoch) or `none` (the Invalid Date sentinel).  Pre-epoch dates,
  fractional milliseconds, and the exotic `new Date(array/object)`
  coercions are not modelled; no store code path the claims touch
  depends on them.
* `JSON.stringify`/`JSON.parse` are modelled at the JSON-value level:
  a localStorage cell (`StorageText`) holds either text that fails
  `JSON.parse` (`malformed`) or text whose parse is a given value
  (`jsonText v`), with `jsToJson` performing the stringify-time
  normalisation (dates to ISO strings, undefined dropped or nulled) and
  `jsonSize` the UTF-8 byte count of the serialised text as measured by
  `new Blob([dataStr]).size`.
* `Date.prototype.toISOString` is modelled by `encodeDate`: an injective
  24-character ASCII digit rendering of the millisecond timestamp.  It
  preserves everything the store relies on — fixed 24-byte ASCII length,
  non-emptiness, and exact millisecond-precision inversion by the `Date`
  constructor (`decodeDateStr`) — without re-deriving the Gregorian
  calendar.
-/

namespace WidgetStore

/-- JavaScript strings: lists of UTF-16 code units. -/
abbrev JStr := List Nat

/-! ## Character classes (`storage.ts` sanitisation regexes) -/

/-- The control characters removed by `sanitizeContent`:
regex `[\x00-\x08\x0B\x0C\x0E-\x1F\x7F]`. -/
def isCtrlChar (c : Nat) : Bool :=
  (c ≤ 8) || (c == 11) || (c == 12) || (14 ≤ c && c ≤ 31) || (c == 127)

/-- The JavaScript `\s` class (also the set trimmed by
`String.prototype.trim`): whitespace and line terminators. -/
def isJsWs (c : Nat) : Bool :=
  (c == 9) || (c == 10) || (c == 11) || (c == 12) || (c == 13) ||
  (c == 32) || (c == 160) || (c == 0x1680) ||
  (0x2000 ≤ c && c ≤ 0x200A) ||
  (c == 0x2028) || (c == 0x2029) || (c == 0x202F) || (c == 0x205F) ||
  (c == 0x3000) || (c == 0xFEFF)

/-! ## `sanitizeContent` -/

/-- `content.replace(/\s+/g, ' ')`: every maximal run of whitespace
becomes a single space.  `inRun` records whether we are inside a run
whose space has already been emitted. -/
def collapseWsAux (inRun : Bool) : List Nat → List Nat
  | [] => []
  | c :: rest =>
    if isJsWs c then
      if inRun then collapseWsAux true rest
      else 32 :: collapseWsAux true rest
    else c :: collapseWsAux false rest

/-- `String.prototype.trim`: drop leading and trailing whitespace. -/
def trimWs (l : List Nat) : List Nat :=
  ((l.dropWhile isJsWs).reverse.dropWhile isJsWs).reverse

/-- `sanitizeContent` from `storage.ts`: remove control characters,
collapse whitespace runs to single spaces, trim, then
`.slice(0, 5000)` (5000 UTF-16 code units). -/
def sanitizeContent (l : List Nat) : List Nat :=
  (trimWs (collapseWsAux false (l.filter (fun c => !(isCtrlChar c))))).take 5000

/-! ## Unicode code points of a UTF-16 string -/

def isHighSurrogate (c : Nat) : Bool := 0xD800 ≤ c && c ≤ 0xDBFF

def isLowSurrogate (c : Nat) : Bool := 0xDC00 ≤ c && c ≤ 0xDFFF

/-- Number of Unicode code points of a UTF-16 unit list (JS string
iteration: a high surrogate directly followed by a low surrogate is one
code point; lone surrogates count one each). -/
def codePointCount : List Nat → Nat
  | [] => 0
  | [_] => 1
  | u :: v :: rest =>
    if isHighSurrogate u && isLowSurrogate v then 1 + codePointCount rest
    else 1 + codePointCount (v :: rest)

/-! ## Date serialisation (`Date.prototype.toISOString` model) -/

/-- Little-endian base-10 digits of `n` (`fuel`-bounded, fuel ≥ n). -/
def digitsAux : Nat → Nat → List Nat
  | 0, _ => []
  | fuel + 1, n => if n = 0 then [] else n % 10 :: digitsAux fuel (n / 10)

/-- Value of a little-endian digit list. -/
def ofDigitsLE : List Nat → Nat
  | [] => 0
  | d :: rest => d + 10 * ofDigitsLE rest

/-- Model of `Date.prototype.toISOString()` for a timestamp of `t`
milliseconds: a 24-unit ASCII digit string determined by `t` (see the
header comment for the abstraction). -/
def encodeDate (t : Nat) : JStr :=
  let ds := digitsAux (t + 1) t
  ((ds ++ List.replicate (24 - ds.length) 0).reverse).map (· + 48)

/-- Model of `new Date(s)` on a string argument: an all-digit string
decodes to its value, anything else is an Invalid Date (`none`). -/
def decodeDateStr (s : JStr) : Option Nat :=
  if s ≠ [] ∧ s.all (fun c => 48 ≤ c && c ≤ 57) then
    some (ofDigitsLE ((s.map (· - 48)).reverse))
  else none

/-! ## JavaScript runtime values -/

/-- JavaScript values reaching the store.  `date none` is the Invalid
Date sentinel. -/
inductive JsVal where
  | undefined : JsVal
  | null : JsVal
  | bool : Bool → JsVal
  | num : Int → JsVal
  | str : JStr → JsVal
  | date : Option Nat → JsVal
  | arr : List JsVal → JsVal
  | obj : List (JStr × JsVal) → JsVal

/-- JavaScript truthiness. -/
def truthy : JsVal → Bool
  | .undefined => false
  | .null => false
  | .bool b => b
  | .num n => n != 0
  | .str s => !s.isEmpty
  | .date _ => true
  | .arr _ => true
  | .obj _ => true

/-- `typeof v === 'object'` (true for null, Date objects, arrays and
plain objects). -/
def typeofObject : JsVal → Bool
  | .null => true
  | .date _ => true
  | .arr _ => true
  | .obj _ => true
  | _ => false

/-- First binding of key `k` in a field list. -/
def getField (k : JStr) : List (JStr × JsVal) → JsVal
  | [] => .undefined
  | (k', v) :: rest => if k' = k then v else getField k rest

/-- Property read `v[k]` (undefined on non-objects: arrays and dates
carry no modelled own properties). -/
def getProp (v : JsVal) (k : JStr) : JsVal :=
  match v with
  | .obj fs => getField k fs
  | _ => .undefined

/-- Replace the first binding of `k` (append if absent): the effect of
an object-spread override `\x7b...w, k: x\x7d` on the field list. -/
def setField (k : JStr) (x : JsVal) : List (JStr × JsVal) → List (JStr × JsVal)
  | [] => [(k, x)]
  | (k', v) :: rest => if k' = k then (k, x) :: rest else (k', v) :: setField k x rest

/-- Spread-override on an object value; other values are untouched
(unreachable on the store's validated paths). -/
def setProp (v : JsVal) (k : JStr) (x : JsVal) : JsVal :=
  match v with
  | .obj fs => .obj (setField k x fs)
  | _ => v

/-- Model of `new Date(v)` for the argument shapes the store can pass:
strings decode per `decodeDateStr`, finite non-negative numbers are
taken as milliseconds, booleans coerce to 0/1, `null` to 0, `undefined`
to Invalid Date; array/object coercions are modelled as Invalid Date. -/
def decodeDateJs : JsVal → Option Nat
  | .str s => decodeDateStr s
  | .num n => if 0 ≤ n then some n.toNat else none
  | .bool b => some (if b then 1 else 0)
  | .null => some 0
  | .date d => d
  | _ => none

/-! ## JSON stringification -/

/-- Field names used by the store. -/
def keyId : JStr := [105, 100]
def keyContent : JStr := [99, 111, 110, 116, 101, 110, 116]
def keyCreatedAt : JStr := [99, 114, 101, 97, 116, 101, 100, 65, 116]
def keyUpdatedAt : JStr := [117, 112, 100, 97, 116, 101, 100, 65, 116]
def keyWidgets : JStr := [119, 105, 100, 103, 101, 116, 115]
def keyTimestamp : JStr := [116, 105, 109, 101, 115, 116, 97, 109, 112]
def keyVersion : JStr := [118, 101, 114, 115, 105, 111, 110]
def versionStr : JStr := [49, 46, 48]

mutual
/-- `JSON.stringify` normalisation: the JSON value whose text
`JSON.stringify(v)` produces.  Dates render via `toJSON`/`toISOString`
(Invalid Dates as null), `undefined` becomes null in array positions,
and `undefined`-valued object entries are omitted. -/
def jsToJson : JsVal → JsVal
  | .undefined => .null
  | .null => .null
  | .bool b => .bool b
  | .num n => .num n
  | .str s => .str s
  | .date (some t) => .str (encodeDate t)
  | .date none => .null
  | .arr l => .arr (jsToJsonList l)
  | .obj fs => .obj (jsToJsonFields fs)

def jsToJsonList : List JsVal → List JsVal
  | [] => []
  | v :: rest => jsToJson v :: jsToJsonList rest

def jsToJsonFields : List (JStr × JsVal) → List (JStr × JsVal)
  | [] => []
  | (_, .undefined) :: rest => jsToJsonFields rest
  | (k, v) :: rest => (k, jsToJson v) :: jsToJsonFields rest
end

/-- UTF-8 byte count of one code unit inside a JSON string literal when
it is not part of a surrogate pair: the short escapes are two bytes,
other control characters and lone surrogates are six (`\uXXXX`), the
rest take their UTF-8 width. -/
def unitBytes (c : Nat) : Nat :=
  if c == 34 || c == 92 then 2
  else if c == 8 || c == 9 || c == 10 || c == 12 || c == 13 then 2
  else if c < 32 then 6
  else if c < 0x80 then 1
  else if c < 0x800 then 2
  else if isHighSurrogate c || isLowSurrogate c then 6
  else 3

/-- UTF-8 byte count of the body of a JSON string literal: a valid
surrogate pair is one four-byte code point. -/
def strBytes : List Nat → Nat
  | [] => 0
  | [c] => unitBytes c
  | c :: d :: rest =>
    if isHighSurrogate c && isLowSurrogate d then 4 + strBytes rest
    else unitBytes c + strBytes (d :: rest)

/-- Decimal width of an integer as JSON renders it. -/
def numBytes (n : Int) : Nat :=
  (if n < 0 then 1 else 0) + (digitsAux (n.natAbs + 1) n.natAbs).length.max 1

mutual
/-- Byte size of the serialised JSON text of a (normalised) value, as
measured by `new Blob([JSON.stringify(v)]).size`. -/
def jsonSize : JsVal → Nat
  | .undefined => 4
  | .null => 4
  | .bool b => if b then 4 else 5
  | .num n => numBytes n
  | .str s => 2 + strBytes s
  | .date (some t) => 2 + strBytes (encodeDate t)
  | .date none => 4
  | .arr l => 2 + jsonSizeElems l
  | .obj fs => 2 + jsonSizeFields fs

/-- Bytes of comma-separated array elements. -/
def jsonSizeElems : List JsVal → Nat
  | [] => 0
  | [v] => jsonSize v
  | v :: w :: rest => jsonSize v + 1 + jsonSizeElems (w :: rest)

/-- Bytes of comma-separated `"key":value` object entries. -/
def jsonSizeFields : List (JStr × JsVal) → Nat
  | [] => 0
  | [(k, v)] => 2 + strBytes k + 1 + jsonSize v
  | (k, v) :: f :: rest => 2 + strBytes k + 1 + jsonSize v + 1 + jsonSizeFields (f :: rest)
end

/-! ## The store -/

/-- Error codes of `StorageError`. -/
inductive ErrCode where
  | storageUnavailable
  | invalidType
  | invalidInput
  | invalidWidget
  | invalidId
  | invalidContent
  | invalidFormat
  | parseError
  | quotaExceeded
  | saveError
  | updateError
  | deleteError
deriving DecidableEq

/-- `StorageError` (message text dropped): error code plus the
`recoverable` flag. -/
structure StorageErr where
  code : ErrCode
  recoverable : Bool
deriving DecidableEq

/-- A localStorage cell: text failing `JSON.parse`, or text parsing to
the given value. -/
inductive StorageText where
  | malformed : StorageText
  | jsonText : JsVal → StorageText

/-- The store's environment: whether localStorage works
(`isStorageAvailable`), and the two keys it owns. -/
structure StoreState where
  available : Bool
  primary : Option StorageText
  backup : Option StorageText

/-- `5 * 1024 * 1024` (`MAX_STORAGE_SIZE`). -/
def MAX_STORAGE_SIZE : Nat := 5 * 1024 * 1024

/-- `checkStorageQuota` (the `navigator.storage.estimate` branch only
logs): passes iff the size is strictly below the limit. -/
def checkStorageQuota (dataSize : Nat) : Bool :=
  dataSize < MAX_STORAGE_SIZE

/-- `LocalStorageService.validateWidget`: the runtime widget-shape
predicate. -/
def validateWidget (w : JsVal) : Bool :=
  truthy w && typeofObject w &&
  (match getProp w keyId with | .str _ => true | _ => false) &&
  (match getProp w keyContent with | .str _ => true | _ => false) &&
  truthy (getProp w keyCreatedAt) &&
  truthy (getProp w keyUpdatedAt)

/-- Content string of a widget that passed `validateWidget` (always a
string there). -/
def contentStr (w : JsVal) : JStr :=
  match getProp w keyContent with
  | .str s => s
  | _ => []

/-- One element of `parseStoredWidgets`'s loop body: the object spread
rebuilding a valid element with sanitised content and `Date`-parsed
timestamps. -/
def parsedElem (w : JsVal) : JsVal :=
  setProp
    (setProp
      (setProp w keyContent (.str (sanitizeContent (contentStr w))))
      keyCreatedAt (.date (decodeDateJs (getProp w keyCreatedAt))))
    keyUpdatedAt (.date (decodeDateJs (getProp w keyUpdatedAt)))

/-- The validation loop of `parseStoredWidgets` over a decoded array:
invalid elements are skipped, valid ones rebuilt in order. -/
def parseWidgetList (elems : List JsVal) : List JsVal :=
  (elems.filter validateWidget).map parsedElem

/-- `attemptRecovery`: read the backup key; on any parse failure or a
missing/non-array `widgets` field return `[]`; otherwise run the
element loop (the inner `parseStoredWidgets` call receives a stringified
array, so it can only take the array branch). -/
def attemptRecovery (st : StoreState) : List JsVal :=
  match st.backup with
  | some (.jsonText v) =>
    match getProp v keyWidgets with
    | .arr elems =>
      if truthy (getProp v keyWidgets) then parseWidgetList elems else []
    | _ => []
  | _ => []

/-- The `catch` branch of `parseStoredWidgets`: recovered widgets if
the backup yields any, otherwise the non-recoverable `PARSE_ERROR`. -/
def recoverOrFail (st : StoreState) : Except StorageErr (List JsVal) :=
  let recovered := attemptRecovery st
  if recovered.length > 0 then .ok recovered
  else .error ⟨.parseError, false⟩

/-- `parseStoredWidgets`: absent text is an empty list; text that fails
to parse, or parses to a non-array (`INVALID_FORMAT`, swallowed by the
function's own catch), goes to backup recovery; an array goes through
the per-element validation loop. -/
def parseStoredWidgets (st : StoreState) (stored : Option StorageText) :
    Except StorageErr (List JsVal) :=
  match stored with
  | none => .ok []
  | some .malformed => recoverOrFail st
  | some (.jsonText v) =>
    match v with
    | .arr elems => .ok (parseWidgetList elems)
    | _ => recoverOrFail st

/-- The body of `getWidgets` before its catch: unavailable storage
throws the recoverable `STORAGE_UNAVAILABLE`. -/
def getWidgetsRaw (st : StoreState) : Except StorageErr (List JsVal) :=
  if st.available then parseStoredWidgets st st.primary
  else .error ⟨.storageUnavailable, true⟩

/-- `getWidgets`: its catch rejects only non-recoverable
`StorageError`s and downgrades everything else to an empty list. -/
def getWidgets (st : StoreState) : Except StorageErr (List JsVal) :=
  match getWidgetsRaw st with
  | .ok ws => .ok ws
  | .error e => if e.recoverable then .ok [] else .error e

/-- The per-element work of `saveWidgets`'s `map`: spread the widget
with its content sanitised. -/
def validatedElem (w : JsVal) : JsVal :=
  setProp w keyContent (.str (sanitizeContent (contentStr w)))

/-- `createBackup`'s record value. -/
def backupRecord (validated : List JsVal) (now : Nat) : JsVal :=
  .obj [(keyWidgets, .arr validated),
        (keyTimestamp, .str (encodeDate now)),
        (keyVersion, .str versionStr)]

/-- `saveWidgets` (input already array-shaped, so the `INVALID_INPUT`
check passes; `now` is the clock read by `createBackup`): availability
check, per-element validation (any invalid element aborts with the
non-recoverable `INVALID_WIDGET` before any write), sanitisation, quota
check on the serialised byte size, then backup write followed by the
primary write. -/
def saveWidgets (st : StoreState) (widgets : List JsVal) (now : Nat) :
    StoreState × Except StorageErr Unit :=
  if !st.available then (st, .error ⟨.storageUnavailable, false⟩)
  else if widgets.any (fun w => !validateWidget w) then
    (st, .error ⟨.invalidWidget, false⟩)
  else
    let validated := widgets.map validatedElem
    let dataSize := jsonSize (jsToJson (.arr validated))
    if !checkStorageQuota dataSize then (st, .error ⟨.quotaExceeded, true⟩)
    else
      let st₁ := { st with backup := some (.jsonText (jsToJson (backupRecord validated now))) }
      ({ st₁ with primary := some (.jsonText (jsToJson (.arr validated))) }, .ok ())

/-- Is the value a JSON array (`Array.isArray`)? -/
def isArrVal : JsVal → Bool
  | .arr _ => true
  | _ => false

/-- The caller-side shape of a `TextWidget`: the four typed fields,
with `Date` timestamps in milliseconds. -/
structure WidgetData where
  wid : JStr
  wcontent : JStr
  createdAt : Nat
  updatedAt : Nat

/-- The runtime object a caller passes for a `TextWidget`. -/
def mkWidget (w : WidgetData) : JsVal :=
  .obj [(keyId, .str w.wid), (keyContent, .str w.wcontent),
        (keyCreatedAt, .date (some w.createdAt)), (keyUpdatedAt, .date (some w.updatedAt))]

/-- The JSON element `saveWidgets` persists for `mkWidget w`: content
sanitised once, timestamps as ISO strings. -/
def savedJson (w : WidgetData) : JsVal :=
  .obj [(keyId, .str w.wid), (keyContent, .str (sanitizeContent w.wcontent)),
        (keyCreatedAt, .str (encodeDate w.createdAt)),
        (keyUpdatedAt, .str (encodeDate w.updatedAt))]

/-- The widget `getWidgets` yields after a save of `mkWidget w`:
identical id, content sanitised once more on load, timestamps
reconstructed as valid dates equal to the originals. -/
def roundW (w : WidgetData) : JsVal :=
  .obj [(keyId, .str w.wid),
        (keyContent, .str (sanitizeContent (sanitizeContent w.wcontent))),
        (keyCreatedAt, .date (some w.createdAt)),
        (keyUpdatedAt, .date (some w.updatedAt))]

/-- `updateWidget`: validate the id, sanitise the content, load the
current list, return `none` when no id matches, otherwise replace the
first match's content and `updatedAt` and persist through
`saveWidgets`, returning the updated widget. -/
def updateWidget (st : StoreState) (id : JStr) (content : JStr) (now : Nat) :
    StoreState × Except StorageErr (Option JsVal) :=
  if id.isEmpty then (st, .error ⟨.invalidId, false⟩)
  else
    let sanitized := sanitizeContent content
    match getWidgets st with
    | .error e => (st, .error e)
    | .ok widgets =>
      match widgets.findIdx? (fun w =>
          match getProp w keyId with | .str s => s == id | _ => false) with
      | none => (st, .ok none)
      | some i =>
        let updated := setProp (setProp (widgets.getD i .null) keyContent (.str sanitized))
          keyUpdatedAt (.date (some now))
        let widgets' := widgets.set i updated
        match saveWidgets st widgets' now with
        | (st', .ok _) => (st', .ok (some updated))
        | (st', .error e) => (st', .error e)

/-! ## Helper lemmas: the sanitiser -/

theorem dropWhile_of_all_neg {p : Nat → Bool} {l : List Nat}
    (h : ∀ c ∈ l, p c = false) : l.dropWhile p = l := by
  cases l with
  | nil => rfl
  | cons c rest =>
    simp [List.dropWhile, h c (by simp)]

theorem dropWhile_of_head_neg {p : Nat → Bool} {l : List Nat}
    (h : ∀ c ∈ l.head?, p c = false) : l.dropWhile p = l := by
  cases l with
  | nil => rfl
  | cons c rest => simp [List.dropWhile, h c (by simp)]

theorem mem_of_mem_dropWhile {p : Nat → Bool} {l : List Nat} {c : Nat}
    (h : c ∈ l.dropWhile p) : c ∈ l := by
  induction l with
  | nil => simp at h
  | cons d rest ih =>
    by_cases hd : p d
    · simp [List.dropWhile, hd] at h
      exact List.mem_cons_of_mem _ (ih h)
    · simpa [List.dropWhile, hd] using h

theorem mem_of_mem_trimWs {l : List Nat} {c : Nat} (h : c ∈ trimWs l) : c ∈ l := by
  unfold trimWs at h
  rw [List.mem_reverse] at h
  have h₂ := mem_of_mem_dropWhile h
  rw [List.mem_reverse] at h₂
  exact mem_of_mem_dropWhile h₂

theorem trimWs_of_all_no_ws {l : List Nat}
    (h : ∀ c ∈ l, isJsWs c = false) : trimWs l = l := by
  unfold trimWs
  rw [dropWhile_of_all_neg h, dropWhile_of_all_neg (by simpa using h)]
  simp

theorem collapseWsAux_of_no_ws {l : List Nat}
    (h : ∀ c ∈ l, isJsWs c = false) : ∀ b, collapseWsAux b l = l := by
  induction l with
  | nil => intro b; rfl
  | cons c rest ih =>
    intro b
    have hc : isJsWs c = false := h c (by simp)
    simp [collapseWsAux, hc, ih (fun x hx => h x (by simp [hx]))]

theorem collapseWsAux_append_no_ws {l₁ l₂ : List Nat}
    (h : ∀ c ∈ l₁, isJsWs c = false) :
    collapseWsAux false (l₁ ++ l₂) = l₁ ++ collapseWsAux false l₂ := by
  induction l₁ with
  | nil => rfl
  | cons c rest ih =>
    have hc : isJsWs c = false := h c (by simp)
    simp [collapseWsAux, hc, ih (fun x hx => h x (by simp [hx]))]

theorem mem_collapseWsAux {l : List Nat} {c : Nat} :
    ∀ b, c ∈ collapseWsAux b l → c = 32 ∨ c ∈ l := by
  induction l with
  | nil => intro b h; simp [collapseWsAux] at h
  | cons d rest ih =>
    intro b h
    by_cases hd : isJsWs d
    · cases b with
      | true =>
        simp only [collapseWsAux, hd, if_true] at h
        rcases ih true h with h' | h'
        · exact Or.inl h'
        · exact Or.inr (List.mem_cons_of_mem _ h')
      | false =>
        simp only [collapseWsAux, hd, if_true] at h
        rcases List.mem_cons.mp h with h' | h'
        · exact Or.inl h'
        · rcases ih true h' with h'' | h''
          · exact Or.inl h''
          · exact Or.inr (List.mem_cons_of_mem _ h'')
    · simp only [collapseWsAux, hd, if_false, Bool.false_eq_true] at h
      rcases List.mem_cons.mp h with h' | h'
      · exact Or.inr (by simp [h'])
      · rcases ih false h' with h'' | h''
        · exact Or.inl h''
        · exact Or.inr (List.mem_cons_of_mem _ h'')

/-- A sanitised string with no whitespace and no control characters
passes through everything but the final slice. -/
theorem sanitizeContent_plain {l : List Nat}
    (hw : ∀ c ∈ l, isJsWs c = false) (hc : ∀ c ∈ l, isCtrlChar c = false) :
    sanitizeContent l = l.take 5000 := by
  unfold sanitizeContent
  rw [List.filter_eq_self.mpr (by simpa using hc), collapseWsAux_of_no_ws hw,
    trimWs_of_all_no_ws hw]

theorem sanitizeContent_plain_short {l : List Nat}
    (hw : ∀ c ∈ l, isJsWs c = false) (hc : ∀ c ∈ l, isCtrlChar c = false)
    (hl : l.length ≤ 5000) : sanitizeContent l = l := by
  rw [sanitizeContent_plain hw hc, List.take_of_length_le hl]

/-! ## Helper lemmas: code points -/

theorem codePointCount_cons_no_high {u : Nat} {l : List Nat}
    (h : isHighSurrogate u = false) : codePointCount (u :: l) = 1 + codePointCount l := by
  cases l with
  | nil => simp [codePointCount]
  | cons v rest => simp [codePointCount, h]

theorem codePointCount_cons_next_not_low {u : Nat} {l : List Nat}
    (h : ∀ v ∈ l.head?, isLowSurrogate v = false) :
    codePointCount (u :: l) = 1 + codePointCount l := by
  cases l with
  | nil => simp [codePointCount]
  | cons v rest => simp [codePointCount, h v (by simp)]

theorem codePointCount_le_length : ∀ l : List Nat, codePointCount l ≤ l.length := by
  intro l
  induction l using codePointCount.induct with
  | case1 => simp [codePointCount]
  | case2 => simp [codePointCount]
  | case3 u v rest h ih =>
    simp only [codePointCount, if_pos h, List.length_cons]
    omega
  | case4 u v rest h ih =>
    simp only [codePointCount, if_neg h, List.length_cons] at ih ⊢
    omega

theorem codePointCount_replicate (c : Nat) : ∀ n, codePointCount (List.replicate n c) = n := by
  intro n
  induction n with
  | zero => simp [codePointCount]
  | succ m ih =>
    rw [List.replicate_succ]
    cases hl : isLowSurrogate c
    · rw [codePointCount_cons_next_not_low, ih]
      · omega
      · intro v hv
        have hvc : c = v := by
          cases m with
          | zero => simp at hv
          | succ k =>
            rw [List.replicate_succ] at hv
            simpa using hv
        rw [← hvc]
        exact hl
    · have hh : isHighSurrogate c = false := by
        cases hh2 : isHighSurrogate c
        · rfl
        · exfalso
          simp only [isHighSurrogate, Bool.and_eq_true, decide_eq_true_eq] at hh2
          simp only [isLowSurrogate, Bool.and_eq_true, decide_eq_true_eq] at hl
          omega
      rw [codePointCount_cons_no_high hh, ih]
      omega

theorem codePointCount_pair_flatten {a b : Nat}
    (ha : isHighSurrogate a = true) (hb : isLowSurrogate b = true) :
    ∀ n, codePointCount (List.flatten (List.replicate n [a, b])) = n := by
  intro n
  induction n with
  | zero => simp [codePointCount]
  | succ m ih =>
    rw [List.replicate_succ, List.flatten_cons]
    simp only [List.cons_append, List.nil_append]
    simp [codePointCount, ha, hb, ih]
    omega

theorem take_flatten_pair {a b : Nat} :
    ∀ k n, k ≤ n →
      (List.flatten (List.replicate n [a, b])).take (2 * k) =
        List.flatten (List.replicate k [a, b]) := by
  intro k
  induction k with
  | zero => simp
  | succ j ih =>
    intro n hn
    cases n with
    | zero => omega
    | succ m =>
      rw [List.replicate_succ, List.flatten_cons, List.replicate_succ, List.flatten_cons]
      simp only [List.cons_append, List.nil_append]
      have : 2 * (j + 1) = (2 * j) + 1 + 1 := by omega
      rw [this, List.take_succ_cons, List.take_succ_cons, ih m (by omega)]

theorem mem_flatten_pair {a b c : Nat} {n : Nat}
    (h : c ∈ List.flatten (List.replicate n [a, b])) : c = a ∨ c = b := by
  rw [List.mem_flatten] at h
  obtain ⟨l, hl, hc⟩ := h
  rw [List.eq_of_mem_replicate hl] at hc
  simpa using hc

/-! ## Helper lemmas: trimming at the ends -/

theorem trimWs_of_ends {l : List Nat}
    (h₁ : ∀ c ∈ l.head?, isJsWs c = false)
    (h₂ : ∀ c ∈ l.getLast?, isJsWs c = false) : trimWs l = l := by
  unfold trimWs
  rw [dropWhile_of_head_neg h₁, dropWhile_of_head_neg (by simpa using h₂)]
  simp

theorem head_rep97_append (r : List Nat) :
    (List.replicate 4999 (97 : Nat) ++ r).head? = some 97 := by
  rw [show (4999 : Nat) = 4998 + 1 from rfl, List.replicate_succ]
  rfl

/-- Computation of `sanitizeContent` on `'a' * 4999 ++ " b"`: the slice
cuts right after the collapsed space, leaving a trailing space. -/
theorem sanitize_rep_space_b :
    sanitizeContent (List.replicate 4999 97 ++ [32, 98]) =
      List.replicate 4999 97 ++ [32] := by
  have hmem : ∀ c ∈ List.replicate 4999 (97 : Nat), isJsWs c = false := by
    intro c hc; rw [List.eq_of_mem_replicate hc]; decide
  unfold sanitizeContent
  rw [List.filter_append, List.filter_eq_self.mpr
      (by intro c hc; rw [List.eq_of_mem_replicate hc]; decide),
    List.filter_eq_self.mpr (by decide),
    collapseWsAux_append_no_ws hmem,
    show collapseWsAux false [32, 98] = [32, 98] from rfl,
    trimWs_of_ends
      (by rw [head_rep97_append]
          intro c hc
          have hc' : (97 : Nat) = c := by simpa using hc
          rw [← hc']; decide)
      (by rw [List.getLast?_append_of_ne_nil _ (by simp)]
          intro c hc
          have hc' : (98 : Nat) = c := by simpa using hc
          rw [← hc']; decide),
    List.take_append_eq_append_take,
    List.take_of_length_le (by rw [List.length_replicate]; omega), List.length_replicate,
    show (5000 - 4999 : Nat) = 1 from rfl,
    show List.take 1 [32, 98] = [32] from rfl]

/-- Re-sanitising `'a' * 4999 ++ " "` trims the trailing space. -/
theorem sanitize_rep_space :
    sanitizeContent (List.replicate 4999 97 ++ [32]) = List.replicate 4999 97 := by
  have hmem : ∀ c ∈ List.replicate 4999 (97 : Nat), isJsWs c = false := by
    intro c hc; rw [List.eq_of_mem_replicate hc]; decide
  unfold sanitizeContent
  rw [List.filter_append, List.filter_eq_self.mpr
      (by intro c hc; rw [List.eq_of_mem_replicate hc]; decide),
    List.filter_eq_self.mpr (by decide),
    collapseWsAux_append_no_ws hmem,
    show collapseWsAux false [32] = [32] from rfl]
  unfold trimWs
  have h1 : List.dropWhile isJsWs (List.replicate 4999 (97 : Nat) ++ [32]) =
      List.replicate 4999 97 ++ [32] := by
    apply dropWhile_of_head_neg
    rw [head_rep97_append]
    intro c hc
    have hc' : (97 : Nat) = c := by simpa using hc
    rw [← hc']; decide
  have h2 : (List.replicate 4999 (97 : Nat) ++ [32]).reverse =
      32 :: List.replicate 4999 97 := by
    rw [List.reverse_append, List.reverse_replicate]
    rfl
  rw [h1, h2, List.dropWhile_cons_of_pos (by decide), dropWhile_of_all_neg hmem,
    List.reverse_replicate]
  exact List.take_of_length_le (by rw [List.length_replicate]; omega)

/-! ## Claim C5 -/

/-- C5 (amended): `sanitizeContent` truncates by UTF-16 code units
(`.slice(0, 5000)`), so the result always has at most 5000 Unicode code
points, and an input of 5001 repeated single-unit characters (no
whitespace or control characters) sanitises to exactly 5000 code
points.  A character encoded as a surrogate pair counts two units, so
5001 repeated non-BMP characters yield 2500 code points (see the
counterexample). -/
theorem sanitize_code_point_limit :
    (∀ s : List Nat, codePointCount (sanitizeContent s) ≤ 5000) ∧
    (∀ c : Nat, isJsWs c = false → isCtrlChar c = false →
      codePointCount (sanitizeContent (List.replicate 5001 c)) = 5000) := by
  constructor
  · intro s
    calc codePointCount (sanitizeContent s)
        ≤ (sanitizeContent s).length := codePointCount_le_length _
      _ ≤ 5000 := by unfold sanitizeContent; exact List.length_take_le _ _
  · intro c hw hc
    rw [sanitizeContent_plain
        (by intro x hx; rw [List.eq_of_mem_replicate hx]; exact hw)
        (by intro x hx; rw [List.eq_of_mem_replicate hx]; exact hc),
      List.take_replicate, codePointCount_replicate]
    omega

/-- C5 witness: the repeated character `'a'` (code unit 97). -/
theorem sanitize_code_point_limit_witness :
    isJsWs 97 = false ∧ isCtrlChar 97 = false ∧
    codePointCount (sanitizeContent (List.replicate 5001 97)) = 5000 :=
  ⟨by decide, by decide, sanitize_code_point_limit.2 97 (by decide) (by decide)⟩

/-- C5 counterexample: 5001 repetitions of U+1F600 (UTF-16 pair
`D83D DE00`) sanitise to 2500 code points, not 5000: the slice counts
UTF-16 units, not code points. -/
theorem sanitize_code_point_limit_cex :
    codePointCount (sanitizeContent
        (List.flatten (List.replicate 5001 [0xD83D, 0xDE00]))) = 2500 ∧
    codePointCount (sanitizeContent
        (List.flatten (List.replicate 5001 [0xD83D, 0xDE00]))) ≠ 5000 := by
  have h : sanitizeContent (List.flatten (List.replicate 5001 [(0xD83D : Nat), 0xDE00])) =
      List.flatten (List.replicate 2500 [0xD83D, 0xDE00]) := by
    rw [sanitizeContent_plain
        (by intro x hx; rcases mem_flatten_pair hx with h' | h' <;> rw [h'] <;> decide)
        (by intro x hx; rcases mem_flatten_pair hx with h' | h' <;> rw [h'] <;> decide),
      show (5000 : Nat) = 2 * 2500 from rfl, take_flatten_pair 2500 5001 (by omega)]
  rw [h, codePointCount_pair_flatten (by decide) (by decide)]
  exact ⟨rfl, by omega⟩

/-! ## Claim C10: counterexample -/

/-- C10 counterexample: `sanitizeContent` is not idempotent.  On
`'a' * 4999 ++ " b"` the slice truncates directly after the collapsed
space, so the first pass ends in `' '` and a second pass trims it. -/
theorem sanitize_idempotent_cex :
    sanitizeContent (sanitizeContent (List.replicate 4999 97 ++ [32, 98])) ≠
      sanitizeContent (List.replicate 4999 97 ++ [32, 98]) := by
  rw [sanitize_rep_space_b, sanitize_rep_space]
  intro h
  have hl := congrArg List.length h
  simp only [List.length_append, List.length_replicate, List.length_cons,
    List.length_nil] at hl
  omega

/-! ## Claim C10: the amended idempotence -/

theorem ws_mem_collapseWsAux {l : List Nat} {c : Nat} (hc : isJsWs c = true) :
    ∀ b, c ∈ collapseWsAux b l → c = 32 := by
  induction l with
  | nil => intro b h; simp [collapseWsAux] at h
  | cons d rest ih =>
    intro b h
    by_cases hd : isJsWs d
    · cases b with
      | true =>
        simp only [collapseWsAux, hd, if_true] at h
        exact ih true h
      | false =>
        simp only [collapseWsAux, hd, if_true] at h
        rcases List.mem_cons.mp h with h' | h'
        · exact h'
        · exact ih true h'
    · simp only [collapseWsAux, hd, if_false, Bool.false_eq_true] at h
      rcases List.mem_cons.mp h with h' | h'
      · rw [h'] at hc
        rw [hc] at hd
        simp at hd
      · exact ih false h'

theorem head_collapseWsAux_true_not_ws {l : List Nat} :
    ∀ c ∈ (collapseWsAux true l).head?, isJsWs c = false := by
  induction l with
  | nil => intro c h; simp [collapseWsAux] at h
  | cons d rest ih =>
    intro c h
    by_cases hd : isJsWs d
    · simp only [collapseWsAux, hd, if_true] at h
      exact ih c h
    · simp only [collapseWsAux, hd, if_false, Bool.false_eq_true, List.head?_cons] at h
      have : d = c := by simpa using h
      rw [← this]
      simpa using hd

theorem collapseWsAux_cons_ws_false {d : Nat} {rest : List Nat}
    (hd : isJsWs d = true) :
    collapseWsAux false (d :: rest) = 32 :: collapseWsAux true rest := by
  simp [collapseWsAux, hd]

theorem collapseWsAux_cons_ws_true {d : Nat} {rest : List Nat}
    (hd : isJsWs d = true) :
    collapseWsAux true (d :: rest) = collapseWsAux true rest := by
  simp [collapseWsAux, hd]

theorem collapseWsAux_cons_not_ws {d : Nat} {rest : List Nat} (b : Bool)
    (hd : isJsWs d = false) :
    collapseWsAux b (d :: rest) = d :: collapseWsAux false rest := by
  simp [collapseWsAux, hd]

/-- Adjacent characters of a collapsed string are never both
whitespace. -/
theorem chain'_collapseWsAux {l : List Nat} :
    ∀ b, (collapseWsAux b l).Chain'
      (fun a a' => ¬(isJsWs a = true ∧ isJsWs a' = true)) := by
  induction l with
  | nil => intro b; simp [collapseWsAux]
  | cons d rest ih =>
    intro b
    by_cases hd : isJsWs d
    · cases b with
      | true => rw [collapseWsAux_cons_ws_true hd]; exact ih true
      | false =>
        rw [collapseWsAux_cons_ws_false hd, List.chain'_cons']
        refine ⟨?_, ih true⟩
        intro y hy
        have := head_collapseWsAux_true_not_ws y hy
        simp [this]
    · rw [collapseWsAux_cons_not_ws b (by simpa using hd), List.chain'_cons']
      refine ⟨?_, ih false⟩
      intro y hy
      simp [hd]

theorem collapseWsAux_state_irrel {l : List Nat}
    (h : ∀ c ∈ l.head?, isJsWs c = false) (b b' : Bool) :
    collapseWsAux b l = collapseWsAux b' l := by
  cases l with
  | nil => rfl
  | cons d rest =>
    have hd : isJsWs d = false := h d (by simp)
    simp [collapseWsAux, hd]

/-- A string whose whitespace is all `' '` with no two adjacent is a
fixed point of whitespace collapsing. -/
theorem collapseWsAux_eq_self {l : List Nat}
    (h32 : ∀ c ∈ l, isJsWs c = true → c = 32)
    (hch : l.Chain' (fun a a' => ¬(isJsWs a = true ∧ isJsWs a' = true))) :
    collapseWsAux false l = l := by
  induction l with
  | nil => rfl
  | cons d rest ih =>
    rcases List.chain'_cons'.mp hch with ⟨hR, hch'⟩
    have ih' := ih (fun c hc hw => h32 c (List.mem_cons_of_mem _ hc) hw) hch'
    by_cases hd : isJsWs d
    · have hd32 : d = 32 := h32 d (by simp) hd
      have hhead : ∀ c ∈ rest.head?, isJsWs c = false := by
        intro c hc
        have hRc := hR c hc
        cases hJ : isJsWs c
        · rfl
        · exact absurd ⟨hd, hJ⟩ hRc
      rw [collapseWsAux_cons_ws_false hd, hd32,
        collapseWsAux_state_irrel hhead true false, ih']
    · rw [collapseWsAux_cons_not_ws false (by simpa using hd), ih']

theorem head?_dropWhile_neg (p : Nat → Bool) (l : List Nat) :
    ∀ c ∈ (l.dropWhile p).head?, p c = false := by
  induction l with
  | nil => intro c h; simp at h
  | cons d rest ih =>
    intro c h
    by_cases hd : p d
    · rw [List.dropWhile_cons_of_pos hd] at h
      exact ih c h
    · rw [List.dropWhile_cons_of_neg hd] at h
      have : d = c := by simpa using h
      rw [← this]
      simpa using hd

theorem getLast?_dropWhile (p : Nat → Bool) (l : List Nat)
    (h : l.dropWhile p ≠ []) : (l.dropWhile p).getLast? = l.getLast? := by
  induction l with
  | nil => simp at h
  | cons d rest ih =>
    by_cases hd : p d
    · rw [List.dropWhile_cons_of_pos hd] at h ⊢
      rw [ih h]
      have hrest : rest ≠ [] := by
        intro hr
        rw [hr] at h
        simp at h
      cases rest with
      | nil => simp at hrest
      | cons e t => rw [List.getLast?_cons_cons]
    · rw [List.dropWhile_cons_of_neg hd]

theorem chain'_dropWhile {R : Nat → Nat → Prop} {p : Nat → Bool} {l : List Nat}
    (h : l.Chain' R) : (l.dropWhile p).Chain' R := by
  induction l with
  | nil => simp [List.dropWhile]
  | cons d rest ih =>
    by_cases hd : p d
    · rw [List.dropWhile_cons_of_pos hd]
      exact ih h.tail
    · rw [List.dropWhile_cons_of_neg hd]
      exact h

theorem chain'_sym_reverse {R : Nat → Nat → Prop}
    (hsym : ∀ a b, R a b → R b a) {l : List Nat} (h : l.Chain' R) :
    l.reverse.Chain' R := by
  rw [List.chain'_reverse]
  exact h.imp (fun a b hab => hsym a b hab)

/-- The head and last characters of a trimmed string are never
whitespace. -/
theorem trimWs_ends_not_ws (l : List Nat) :
    (∀ c ∈ (trimWs l).head?, isJsWs c = false) ∧
    (∀ c ∈ (trimWs l).getLast?, isJsWs c = false) := by
  unfold trimWs
  constructor
  · intro c hc
    rw [List.head?_reverse] at hc
    by_cases hw : (l.dropWhile isJsWs).reverse.dropWhile isJsWs = []
    · rw [hw] at hc
      simp at hc
    · rw [getLast?_dropWhile _ _ hw, List.getLast?_reverse] at hc
      exact head?_dropWhile_neg _ _ c hc
  · intro c hc
    rw [List.getLast?_reverse] at hc
    exact head?_dropWhile_neg _ _ c hc

theorem trimWs_trimWs (l : List Nat) : trimWs (trimWs l) = trimWs l :=
  trimWs_of_ends (trimWs_ends_not_ws l).1 (trimWs_ends_not_ws l).2

/-- C10 (amended): `sanitizeContent` is idempotent on every input whose
collapsed and trimmed form does not exceed 5000 UTF-16 units (the slice
is the identity there); in general the slice can cut directly after a
space, leaving a trailing space that only a second pass trims (see the
counterexample). -/
theorem sanitize_idempotent_no_truncation (s : List Nat)
    (h : (trimWs (collapseWsAux false
        (s.filter (fun c => !isCtrlChar c)))).length ≤ 5000) :
    sanitizeContent (sanitizeContent s) = sanitizeContent s := by
  have hy : sanitizeContent s =
      trimWs (collapseWsAux false (s.filter (fun c => !isCtrlChar c))) := by
    unfold sanitizeContent
    exact List.take_of_length_le h
  set y := trimWs (collapseWsAux false (s.filter (fun c => !isCtrlChar c))) with hy_def
  rw [hy]
  have hmem_col : ∀ c ∈ y, c = 32 ∨ c ∈ s.filter (fun c => !isCtrlChar c) := by
    intro c hc
    exact mem_collapseWsAux false (mem_of_mem_trimWs hc)
  have hctrl : ∀ c ∈ y, isCtrlChar c = false := by
    intro c hc
    rcases hmem_col c hc with h' | h'
    · rw [h']; decide
    · have := List.mem_filter.mp h'
      simpa using this.2
  have h32 : ∀ c ∈ y, isJsWs c = true → c = 32 := by
    intro c hc hw
    exact ws_mem_collapseWsAux hw false (mem_of_mem_trimWs hc)
  have hch : y.Chain' (fun a a' => ¬(isJsWs a = true ∧ isJsWs a' = true)) := by
    rw [hy_def]
    unfold trimWs
    apply chain'_sym_reverse (fun a b hab => by tauto)
    apply chain'_dropWhile
    apply chain'_sym_reverse (fun a b hab => by tauto)
    apply chain'_dropWhile
    exact chain'_collapseWsAux false
  have htr : trimWs y = y := by
    rw [hy_def]
    exact trimWs_trimWs _
  unfold sanitizeContent
  rw [List.filter_eq_self.mpr (by intro c hc; simpa using hctrl c hc),
    collapseWsAux_eq_self h32 hch, htr]
  exact List.take_of_length_le h

/-- C10 witness: a short already-collapsible string. -/
theorem sanitize_idempotent_witness :
    (trimWs (collapseWsAux false
        (([97, 32, 32, 98] : List Nat).filter (fun c => !isCtrlChar c)))).length ≤ 5000 ∧
    sanitizeContent (sanitizeContent [97, 32, 32, 98]) = sanitizeContent [97, 32, 32, 98] :=
  ⟨by decide, sanitize_idempotent_no_truncation [97, 32, 32, 98] (by decide)⟩

/-! ## Helper lemmas: object fields -/

theorem getField_setField_self (k : JStr) (x : JsVal) :
    ∀ fs, getField k (setField k x fs) = x := by
  intro fs
  induction fs with
  | nil => simp [setField, getField]
  | cons f rest ih =>
    obtain ⟨k', v⟩ := f
    by_cases hk : k' = k
    · simp [setField, hk, getField]
    · simp [setField, hk, getField, ih]

theorem getField_setField_ne {k k' : JStr} (h : k' ≠ k) (x : JsVal) :
    ∀ fs, getField k' (setField k x fs) = getField k' fs := by
  intro fs
  induction fs with
  | nil =>
    simp only [setField, getField]
    rw [if_neg (fun hh => h hh.symm)]
  | cons f rest ih =>
    obtain ⟨k'', v⟩ := f
    by_cases hk : k'' = k
    · subst hk
      simp only [setField, if_pos rfl, getField]
      rw [if_neg (fun hh => h hh.symm), if_neg (fun hh => h hh.symm)]
    · simp [setField, hk, getField, ih]

theorem validateWidget_obj {w : JsVal} (h : validateWidget w = true) :
    ∃ fs, w = .obj fs := by
  cases w with
  | obj fs => exact ⟨fs, rfl⟩
  | undefined => simp [validateWidget, truthy] at h
  | null => simp [validateWidget, truthy] at h
  | bool b => simp [validateWidget, typeofObject] at h
  | num n => simp [validateWidget, typeofObject] at h
  | str s => simp [validateWidget, typeofObject] at h
  | date d => simp [validateWidget, getProp] at h
  | arr l => simp [validateWidget, getProp] at h

/-- The rebuilt element of the parse loop still satisfies the widget
shape predicate: string id and content, truthy timestamps. -/
theorem validateWidget_parsedElem {w : JsVal} (h : validateWidget w = true) :
    validateWidget (parsedElem w) = true := by
  obtain ⟨fs, rfl⟩ := validateWidget_obj h
  simp only [validateWidget, Bool.and_eq_true, getProp] at h
  obtain ⟨⟨⟨⟨⟨-, -⟩, hid⟩, hcont⟩, hca⟩, hua⟩ := h
  simp only [parsedElem, setProp, contentStr, getProp, validateWidget,
    Bool.and_eq_true, truthy, typeofObject]
  refine ⟨⟨⟨⟨⟨trivial, trivial⟩, ?_⟩, ?_⟩, ?_⟩, ?_⟩
  · rw [getField_setField_ne (by decide), getField_setField_ne (by decide),
      getField_setField_ne (by decide)]
    exact hid
  · rw [getField_setField_ne (by decide), getField_setField_ne (by decide),
      getField_setField_self]
  · rw [getField_setField_ne (by decide), getField_setField_self]
  · rw [getField_setField_self]

/-! ## Claim C2 -/

/-- C2 (code bug): with no backup present, a primary key holding
non-JSON text — the tests' `'invalid json \x7b['` — or a JSON value
that is not an array — the tests' `'\x7b"not":"an array"\x7d'` — makes
`getWidgets` reject with the non-recoverable `PARSE_ERROR` instead of
resolving with an empty list, contradicting the repository's own
tests. -/
theorem getWidgets_corruption_rejects :
    getWidgets ⟨true, some .malformed, none⟩ =
      .error ⟨.parseError, false⟩ ∧
    getWidgets ⟨true, some (.jsonText (.obj [([110, 111, 116],
        .str [97, 110, 32, 97, 114, 114, 97, 121])])), none⟩ =
      .error ⟨.parseError, false⟩ :=
  ⟨rfl, rfl⟩

/-! ## Claim C3 -/

/-- C3: when the stored primary text does not decode as a JSON array
(either unparseable or a non-array value) and backup recovery yields no
widgets, `getWidgets` fails with the non-recoverable `PARSE_ERROR` —
the error is not downgraded to an empty list. -/
theorem getWidgets_parse_error_propagates (st : StoreState)
    (hav : st.available = true)
    (hp : st.primary = some .malformed ∨
      ∃ v, st.primary = some (.jsonText v) ∧ isArrVal v = false)
    (hr : attemptRecovery st = []) :
    getWidgets st = .error ⟨.parseError, false⟩ := by
  have hfail : parseStoredWidgets st st.primary = .error ⟨.parseError, false⟩ := by
    rcases hp with hp | ⟨v, hp, hv⟩
    · rw [hp]
      simp [parseStoredWidgets, recoverOrFail, hr]
    · rw [hp]
      cases v with
      | arr l => simp [isArrVal] at hv
      | undefined => simp [parseStoredWidgets, recoverOrFail, hr]
      | null => simp [parseStoredWidgets, recoverOrFail, hr]
      | bool b => simp [parseStoredWidgets, recoverOrFail, hr]
      | num n => simp [parseStoredWidgets, recoverOrFail, hr]
      | str s => simp [parseStoredWidgets, recoverOrFail, hr]
      | date d => simp [parseStoredWidgets, recoverOrFail, hr]
      | obj fs => simp [parseStoredWidgets, recoverOrFail, hr]
  simp [getWidgets, getWidgetsRaw, hav, hfail]

/-- C3 witness: corrupt primary text and a backup that is itself
unparseable, so recovery fails. -/
theorem getWidgets_parse_error_propagates_witness :
    attemptRecovery ⟨true, some .malformed, some .malformed⟩ = [] ∧
    getWidgets ⟨true, some .malformed, some .malformed⟩ =
      .error ⟨.parseError, false⟩ :=
  ⟨rfl, getWidgets_parse_error_propagates _ rfl (Or.inl rfl) rfl⟩

/-! ## Claim C4 -/

/-- C4: any input sequence containing an element of invalid shape makes
`saveWidgets` fail with the non-recoverable `INVALID_WIDGET` error and
leaves the state — both the primary and the backup key — completely
unchanged. -/
theorem saveWidgets_invalid_aborts (st : StoreState) (ws : List JsVal) (now : Nat)
    (hav : st.available = true) (h : ∃ w ∈ ws, validateWidget w = false) :
    saveWidgets st ws now = (st, .error ⟨.invalidWidget, false⟩) := by
  have hany : ws.any (fun w => !validateWidget w) = true := by
    rw [List.any_eq_true]
    obtain ⟨w, hm, hv⟩ := h
    exact ⟨w, hm, by rw [hv]; rfl⟩
  simp [saveWidgets, hav, hany]

/-- C4 witness: a number in place of a widget object. -/
theorem saveWidgets_invalid_aborts_witness :
    validateWidget (.num 5) = false ∧
    saveWidgets ⟨true, none, none⟩ [.num 5] 0 =
      (⟨true, none, none⟩, .error ⟨.invalidWidget, false⟩) :=
  ⟨rfl, saveWidgets_invalid_aborts _ _ 0 rfl ⟨.num 5, by simp, rfl⟩⟩

/-! ## Claim C9 -/

/-- C9: when the primary key decodes as a JSON array, `getWidgets`
drops the elements failing the widget shape predicate, returns the
remaining ones rebuilt in order, and every returned widget satisfies
the shape predicate. -/
theorem getWidgets_drops_invalid (st : StoreState) (elems : List JsVal)
    (hav : st.available = true)
    (hp : st.primary = some (.jsonText (.arr elems))) :
    getWidgets st = .ok ((elems.filter validateWidget).map parsedElem) ∧
    ∀ w ∈ (elems.filter validateWidget).map parsedElem, validateWidget w = true := by
  constructor
  · simp [getWidgets, getWidgetsRaw, hav, hp, parseStoredWidgets, parseWidgetList]
  · intro w hw
    rw [List.mem_map] at hw
    obtain ⟨v, hv, rfl⟩ := hw
    exact validateWidget_parsedElem (List.of_mem_filter hv)

/-- C9 witness: one valid widget object next to an object missing its
timestamps; the invalid one is dropped, the valid one survives
rebuilt. -/
theorem getWidgets_drops_invalid_witness :
    getWidgets ⟨true, some (.jsonText (.arr
        [.obj [(keyId, .str [119]), (keyContent, .str [104]),
               (keyCreatedAt, .str (encodeDate 3)), (keyUpdatedAt, .str (encodeDate 4))],
         .obj [(keyId, .str [120]), (keyContent, .str [105])]])), none⟩ =
      .ok [parsedElem (.obj [(keyId, .str [119]), (keyContent, .str [104]),
        (keyCreatedAt, .str (encodeDate 3)), (keyUpdatedAt, .str (encodeDate 4))])] ∧
    validateWidget (.obj [(keyId, .str [120]), (keyContent, .str [105])]) = false := by
  have h := getWidgets_drops_invalid
    ⟨true, some (.jsonText (.arr
        [.obj [(keyId, .str [119]), (keyContent, .str [104]),
               (keyCreatedAt, .str (encodeDate 3)), (keyUpdatedAt, .str (encodeDate 4))],
         .obj [(keyId, .str [120]), (keyContent, .str [105])]])), none⟩
    [.obj [(keyId, .str [119]), (keyContent, .str [104]),
           (keyCreatedAt, .str (encodeDate 3)), (keyUpdatedAt, .str (encodeDate 4))],
     .obj [(keyId, .str [120]), (keyContent, .str [105])]]
    rfl rfl
  refine ⟨?_, rfl⟩
  rw [h.1]
  rfl

/-! ## Helper lemmas: date encoding round trip -/

theorem digitsAux_lt : ∀ fuel n, ∀ d ∈ digitsAux fuel n, d < 10 := by
  intro fuel
  induction fuel with
  | zero => intro n d hd; simp [digitsAux] at hd
  | succ f ih =>
    intro n d hd
    by_cases hn : n = 0
    · simp [digitsAux, hn] at hd
    · simp only [digitsAux, hn, if_false] at hd
      rcases List.mem_cons.mp hd with h' | h'
      · rw [h']; exact Nat.mod_lt _ (by omega)
      · exact ih _ d h'

theorem ofDigitsLE_digitsAux : ∀ fuel n, n ≤ fuel → ofDigitsLE (digitsAux fuel n) = n := by
  intro fuel
  induction fuel with
  | zero => intro n h; interval_cases n; simp [digitsAux, ofDigitsLE]
  | succ f ih =>
    intro n h
    by_cases hn : n = 0
    · simp [digitsAux, hn, ofDigitsLE]
    · simp only [digitsAux, hn, if_false, ofDigitsLE]
      rw [ih (n / 10) (by omega)]
      omega

theorem ofDigitsLE_zeros : ∀ k, ofDigitsLE (List.replicate k 0) = 0 := by
  intro k
  induction k with
  | zero => rfl
  | succ j ih => simp [List.replicate_succ, ofDigitsLE, ih]

theorem ofDigitsLE_append_zeros : ∀ l k, ofDigitsLE (l ++ List.replicate k 0) = ofDigitsLE l := by
  intro l k
  induction l with
  | nil => simp [ofDigitsLE, ofDigitsLE_zeros]
  | cons d rest ih => simp [ofDigitsLE, ih]

theorem encodeDate_length (t : Nat) : 24 ≤ (encodeDate t).length := by
  unfold encodeDate
  simp only [List.length_map, List.length_reverse, List.length_append,
    List.length_replicate]
  omega

theorem encodeDate_isEmpty (t : Nat) : (encodeDate t).isEmpty = false := by
  have h := encodeDate_length t
  cases he : encodeDate t with
  | nil => rw [he] at h; simp at h
  | cons a l => rfl

/-- Millisecond-precision inversion: the `Date` constructor recovers
exactly the timestamp that `toISOString` rendered. -/
theorem decode_encode (t : Nat) : decodeDateStr (encodeDate t) = some t := by
  have hne : encodeDate t ≠ [] := by
    have h := encodeDate_length t
    intro he
    rw [he] at h
    simp at h
  have hdig : (encodeDate t).all (fun c => 48 ≤ c && c ≤ 57) = true := by
    rw [List.all_eq_true]
    intro c hc
    unfold encodeDate at hc
    rw [List.mem_map] at hc
    obtain ⟨d, hd, rfl⟩ := hc
    rw [List.mem_reverse, List.mem_append] at hd
    have hd10 : d < 10 := by
      rcases hd with hd | hd
      · exact digitsAux_lt _ _ d hd
      · rw [List.eq_of_mem_replicate hd]; omega
    simp only [Bool.and_eq_true, decide_eq_true_eq]
    omega
  unfold decodeDateStr
  rw [if_pos ⟨hne, hdig⟩]
  congr 1
  unfold encodeDate
  rw [List.map_map, List.map_reverse, List.reverse_reverse]
  have hmap : (List.map ((fun c => c - 48) ∘ fun d => d + 48)
      (digitsAux (t + 1) t ++ List.replicate (24 - (digitsAux (t + 1) t).length) 0)) =
      digitsAux (t + 1) t ++ List.replicate (24 - (digitsAux (t + 1) t).length) 0 := by
    have hfun : ((fun c => c - 48) ∘ fun d => d + 48) = (id : Nat → Nat) := by
      funext d
      simp
    rw [hfun, List.map_id]
  rw [hmap, ofDigitsLE_append_zeros, ofDigitsLE_digitsAux _ _ (by omega)]

/-! ## Helper lemmas: the save path on valid widgets -/

theorem validateWidget_mkWidget (w : WidgetData) : validateWidget (mkWidget w) = true := rfl

theorem validatedElem_mkWidget (w : WidgetData) :
    validatedElem (mkWidget w) =
      .obj [(keyId, .str w.wid), (keyContent, .str (sanitizeContent w.wcontent)),
            (keyCreatedAt, .date (some w.createdAt)),
            (keyUpdatedAt, .date (some w.updatedAt))] := rfl

theorem map_saved (ws : List WidgetData) :
    jsToJsonList ((ws.map mkWidget).map validatedElem) = ws.map savedJson := by
  induction ws with
  | nil => rfl
  | cons w rest ih =>
    simp only [List.map_cons, jsToJsonList]
    rw [ih]
    rfl

/-- `saveWidgets` on a sequence of valid caller widgets, under the
quota: writes the backup record, then persists the sanitised array. -/
theorem saveWidgets_valid (st : StoreState) (ws : List WidgetData) (now : Nat)
    (hav : st.available = true)
    (hq : checkStorageQuota (jsonSize (jsToJson
      (.arr ((ws.map mkWidget).map validatedElem)))) = true) :
    saveWidgets st (ws.map mkWidget) now =
      ({ st with
          backup := some (.jsonText (jsToJson
            (backupRecord ((ws.map mkWidget).map validatedElem) now))),
          primary := some (.jsonText (.arr (ws.map savedJson))) }, .ok ()) := by
  have hany : (ws.map mkWidget).any (fun w => !validateWidget w) = false := by
    rw [List.any_eq_false]
    intro v hv
    rw [List.mem_map] at hv
    obtain ⟨w, _, rfl⟩ := hv
    simp [validateWidget_mkWidget]
  unfold saveWidgets
  rw [hav, hany]
  simp only [Bool.not_true, Bool.false_eq_true, if_false, if_true]
  rw [hq]
  simp only [Bool.not_true, Bool.false_eq_true, if_false]
  have hstore : jsToJson (.arr ((ws.map mkWidget).map validatedElem)) =
      .arr (ws.map savedJson) := by
    show JsVal.arr (jsToJsonList ((ws.map mkWidget).map validatedElem)) = _
    rw [map_saved]
  rw [hstore]

/-! ## Helper lemmas: the load path on persisted widgets -/

theorem validateWidget_savedJson (w : WidgetData) :
    validateWidget (savedJson w) = true := by
  have h3 : truthy (getProp (savedJson w) keyCreatedAt) = true := by
    show truthy (.str (encodeDate w.createdAt)) = true
    simp [truthy, encodeDate_isEmpty]
  have h4 : truthy (getProp (savedJson w) keyUpdatedAt) = true := by
    show truthy (.str (encodeDate w.updatedAt)) = true
    simp [truthy, encodeDate_isEmpty]
  simp only [validateWidget, Bool.and_eq_true]
  exact ⟨⟨⟨⟨⟨rfl, rfl⟩, rfl⟩, rfl⟩, h3⟩, h4⟩

theorem parsedElem_savedJson (w : WidgetData) :
    parsedElem (savedJson w) = roundW w := by
  have h : parsedElem (savedJson w) = .obj [(keyId, .str w.wid),
      (keyContent, .str (sanitizeContent (sanitizeContent w.wcontent))),
      (keyCreatedAt, .date (decodeDateStr (encodeDate w.createdAt))),
      (keyUpdatedAt, .date (decodeDateStr (encodeDate w.updatedAt)))] := rfl
  rw [h, decode_encode, decode_encode]
  rfl

theorem parseWidgetList_saved (ws : List WidgetData) :
    parseWidgetList (ws.map savedJson) = ws.map roundW := by
  unfold parseWidgetList
  rw [List.filter_eq_self.mpr (by
    intro v hv
    rw [List.mem_map] at hv
    obtain ⟨w, _, rfl⟩ := hv
    exact validateWidget_savedJson w)]
  induction ws with
  | nil => rfl
  | cons w rest ih =>
    simp only [List.map_cons]
    rw [ih, parsedElem_savedJson]

/-- Save-then-load on a sequence of valid caller widgets. -/
theorem saveThenGet (st : StoreState) (ws : List WidgetData) (now : Nat)
    (hav : st.available = true)
    (hq : checkStorageQuota (jsonSize (jsToJson
      (.arr ((ws.map mkWidget).map validatedElem)))) = true) :
    (saveWidgets st (ws.map mkWidget) now).2 = .ok () ∧
    getWidgets (saveWidgets st (ws.map mkWidget) now).1 = .ok (ws.map roundW) := by
  rw [saveWidgets_valid st ws now hav hq]
  refine ⟨rfl, ?_⟩
  simp only [getWidgets, getWidgetsRaw, hav, if_true, parseStoredWidgets]
  rw [parseWidgetList_saved]

/-! ## Claim C1 -/

/-- C1 (amended): saving a sequence of valid-shaped widgets and
reloading returns widgets with identical ids and timestamps equal to
the originals (valid dates, millisecond precision), but the content
comes back as `sanitizeContent` applied twice — once by the save path
and once by the load path — which equals the original content only
when it is already a fixed point of sanitisation (see `roundW`). -/
theorem roundtrip_content_sanitized (st : StoreState) (ws : List WidgetData) (now : Nat)
    (hav : st.available = true)
    (hq : checkStorageQuota (jsonSize (jsToJson
      (.arr ((ws.map mkWidget).map validatedElem)))) = true) :
    (saveWidgets st (ws.map mkWidget) now).2 = .ok () ∧
    getWidgets (saveWidgets st (ws.map mkWidget) now).1 =
      .ok (ws.map roundW) :=
  saveThenGet st ws now hav hq

/-- C1 witness: a single widget with already-sanitised content round
trips unchanged. -/
theorem roundtrip_content_sanitized_witness :
    checkStorageQuota (jsonSize (jsToJson
      (.arr (([⟨[119], [104, 105], 5, 7⟩] : List WidgetData).map mkWidget |>.map validatedElem)))) = true ∧
    getWidgets (saveWidgets ⟨true, none, none⟩
        (([⟨[119], [104, 105], 5, 7⟩] : List WidgetData).map mkWidget) 9).1 =
      .ok [.obj [(keyId, .str [119]), (keyContent, .str [104, 105]),
        (keyCreatedAt, .date (some 5)), (keyUpdatedAt, .date (some 7))]] := by
  refine ⟨by decide, ?_⟩
  have h := (roundtrip_content_sanitized ⟨true, none, none⟩
    [⟨[119], [104, 105], 5, 7⟩] 9 rfl (by decide)).2
  rw [h]
  rfl

/-- C1 counterexample: content `"a  b"` (double space) reloads as
`"a b"`, so the reloaded content is not identical to the original. -/
theorem roundtrip_content_cex :
    getWidgets (saveWidgets ⟨true, none, none⟩
        (([⟨[119], [97, 32, 32, 98], 0, 0⟩] : List WidgetData).map mkWidget) 0).1 =
      .ok [.obj [(keyId, .str [119]), (keyContent, .str [97, 32, 98]),
        (keyCreatedAt, .date (some 0)), (keyUpdatedAt, .date (some 0))]] ∧
    [97, 32, 98] ≠ [97, 32, 32, 98] := by
  refine ⟨?_, by decide⟩
  have h := (roundtrip_content_sanitized ⟨true, none, none⟩
    [⟨[119], [97, 32, 32, 98], 0, 0⟩] 0 rfl (by decide)).2
  rw [h]
  rfl

/-! ## Claim C8 -/

/-- C8: the store never reorders — saving a sequence of valid widgets
and reloading returns the ids in exactly the original order. -/
theorem roundtrip_preserves_order (st : StoreState) (ws : List WidgetData) (now : Nat)
    (hav : st.available = true)
    (hq : checkStorageQuota (jsonSize (jsToJson
      (.arr ((ws.map mkWidget).map validatedElem)))) = true) :
    ∃ rs, getWidgets (saveWidgets st (ws.map mkWidget) now).1 = .ok rs ∧
      rs.map (fun w => getProp w keyId) = ws.map (fun w => JsVal.str w.wid) := by
  refine ⟨ws.map roundW, (saveThenGet st ws now hav hq).2, ?_⟩
  clear hq
  induction ws with
  | nil => rfl
  | cons w rest ih =>
    simp only [List.map_cons]
    rw [ih]
    rfl

/-- C8 witness: five widgets `w0..w4` reload in the same id order. -/
theorem roundtrip_preserves_order_witness :
    checkStorageQuota (jsonSize (jsToJson
      (.arr (([⟨[119, 48], [97], 0, 0⟩, ⟨[119, 49], [98], 1, 1⟩, ⟨[119, 50], [99], 2, 2⟩,
               ⟨[119, 51], [100], 3, 3⟩, ⟨[119, 52], [101], 4, 4⟩] : List WidgetData).map mkWidget
        |>.map validatedElem)))) = true ∧
    ∃ rs, getWidgets (saveWidgets ⟨true, none, none⟩
        (([⟨[119, 48], [97], 0, 0⟩, ⟨[119, 49], [98], 1, 1⟩, ⟨[119, 50], [99], 2, 2⟩,
           ⟨[119, 51], [100], 3, 3⟩, ⟨[119, 52], [101], 4, 4⟩] : List WidgetData).map mkWidget) 0).1 =
        .ok rs ∧
      rs.map (fun w => getProp w keyId) =
        [.str [119, 48], .str [119, 49], .str [119, 50], .str [119, 51], .str [119, 52]] := by
  refine ⟨by decide, ?_⟩
  obtain ⟨rs, h1, h2⟩ := roundtrip_preserves_order ⟨true, none, none⟩
    [⟨[119, 48], [97], 0, 0⟩, ⟨[119, 49], [98], 1, 1⟩, ⟨[119, 50], [99], 2, 2⟩,
     ⟨[119, 51], [100], 3, 3⟩, ⟨[119, 52], [101], 4, 4⟩] 0 rfl (by decide)
  exact ⟨rs, h1, h2⟩

/-! ## Helper lemmas: serialised sizes -/

theorem strBytes_cons_no_pair {c : Nat} {rest : List Nat}
    (hc : isHighSurrogate c = false) :
    strBytes (c :: rest) = unitBytes c + strBytes rest := by
  cases rest with
  | nil => simp [strBytes]
  | cons d t => simp [strBytes, hc]

theorem strBytes_rep97 : ∀ n, strBytes (List.replicate n 97) = n := by
  intro n
  induction n with
  | zero => rfl
  | succ m ih =>
    rw [List.replicate_succ, strBytes_cons_no_pair (by decide), ih,
      show unitBytes 97 = 1 from by decide]
    omega

theorem sanitize_rep97 {n : Nat} (hn : n ≤ 5000) :
    sanitizeContent (List.replicate n 97) = List.replicate n 97 :=
  sanitizeContent_plain_short
    (by intro c hc; rw [List.eq_of_mem_replicate hc]; decide)
    (by intro c hc; rw [List.eq_of_mem_replicate hc]; decide)
    (by rw [List.length_replicate]; exact hn)

theorem jsonSizeElems_cons_cons (v w : JsVal) (rest : List JsVal) :
    jsonSizeElems (v :: w :: rest) = jsonSize v + 1 + jsonSizeElems (w :: rest) := by
  simp [jsonSizeElems]

theorem jsonSizeElems_replicate_append (x y : JsVal) :
    ∀ k, jsonSizeElems (List.replicate k x ++ [y]) =
      k * (jsonSize x + 1) + jsonSize y := by
  intro k
  induction k with
  | zero => simp [jsonSizeElems]
  | succ j ih =>
    rw [List.replicate_succ, List.cons_append]
    obtain ⟨h, t, he⟩ := List.exists_cons_of_ne_nil
      (show List.replicate j x ++ [y] ≠ [] by simp)
    rw [he, jsonSizeElems_cons_cons, ← he, ih]
    ring

/-- Per-widget serialised size: `101 + n` bytes for id `"w"`, content
of `n` `'a'`s and epoch timestamps. -/
theorem jsonSize_savedJson_rep {n : Nat} (hn : n ≤ 5000) :
    jsonSize (savedJson ⟨[119], List.replicate n 97, 0, 0⟩) = 101 + n := by
  simp only [savedJson]
  rw [sanitize_rep97 hn]
  simp only [jsonSize, jsonSizeFields]
  rw [strBytes_rep97]
  simp only [show strBytes (encodeDate 0) = 24 from by decide,
    show strBytes keyId = 2 from by decide,
    show strBytes keyContent = 7 from by decide,
    show strBytes keyCreatedAt = 9 from by decide,
    show strBytes keyUpdatedAt = 9 from by decide,
    show strBytes [119] = 1 from by decide]
  ring

/-- `saveWidgets` on valid input failing the quota check: the
recoverable `QUOTA_EXCEEDED` error, no write. -/
theorem saveWidgets_quota_result (st : StoreState) (ws : List JsVal) (now : Nat)
    (hav : st.available = true) (hvalid : ∀ w ∈ ws, validateWidget w = true)
    (hq : checkStorageQuota (jsonSize (jsToJson (.arr (ws.map validatedElem)))) = false) :
    saveWidgets st ws now = (st, .error ⟨.quotaExceeded, true⟩) := by
  have hany : ws.any (fun w => !validateWidget w) = false := by
    rw [List.any_eq_false]
    intro w hw
    simp [hvalid w hw]
  simp [saveWidgets, hav, hany, hq]

/-! ## Claim C7 -/

/-- C7 (amended): with storage available and every widget valid,
`saveWidgets` fails with the recoverable `QUOTA_EXCEEDED` error if and
only if the serialised byte size is at least the configured
`MAX_STORAGE_SIZE` of 5 MiB: the check is `dataSize < limit`, so a
serialisation of exactly 5 MiB already fails (see the
counterexample). -/
theorem saveWidgets_quota_iff (st : StoreState) (ws : List JsVal) (now : Nat)
    (hav : st.available = true) (hvalid : ∀ w ∈ ws, validateWidget w = true) :
    (saveWidgets st ws now).2 = .error ⟨.quotaExceeded, true⟩ ↔
      MAX_STORAGE_SIZE ≤ jsonSize (jsToJson (.arr (ws.map validatedElem))) := by
  have hany : ws.any (fun w => !validateWidget w) = false := by
    rw [List.any_eq_false]
    intro w hw
    simp [hvalid w hw]
  cases hq : checkStorageQuota (jsonSize (jsToJson (.arr (ws.map validatedElem))))
  · rw [saveWidgets_quota_result st ws now hav hvalid hq]
    have hge : MAX_STORAGE_SIZE ≤ jsonSize (jsToJson (.arr (ws.map validatedElem))) := by
      unfold checkStorageQuota at hq
      simp only [decide_eq_false_iff_not, Nat.not_lt] at hq
      exact hq
    constructor
    · intro _; exact hge
    · intro _; rfl
  · have hlt : jsonSize (jsToJson (.arr (ws.map validatedElem))) < MAX_STORAGE_SIZE := by
      unfold checkStorageQuota at hq
      simpa using hq
    simp [saveWidgets, hav, hany, hq]
    omega

/-- C7 witness: one tiny widget, far below the quota, saves
successfully (the iff instantiated where both sides are false). -/
theorem saveWidgets_quota_iff_witness :
    (∀ w ∈ [mkWidget ⟨[119], [97], 0, 0⟩], validateWidget w = true) ∧
    ((saveWidgets ⟨true, none, none⟩ [mkWidget ⟨[119], [97], 0, 0⟩] 0).2 =
        .error ⟨.quotaExceeded, true⟩ ↔
      MAX_STORAGE_SIZE ≤ jsonSize (jsToJson
        (.arr ([mkWidget ⟨[119], [97], 0, 0⟩].map validatedElem)))) :=
  ⟨fun w hw => by rw [List.mem_singleton.mp hw]; rfl,
   saveWidgets_quota_iff ⟨true, none, none⟩ _ 0 rfl
     (fun w hw => by rw [List.mem_singleton.mp hw]; rfl)⟩

/-- C7 counterexample: 1027 widgets of 5000 `'a'`s plus one of 3023
`'a'`s serialise to exactly `5 * 1024 * 1024` bytes — a size that does
not exceed the quota — yet the save fails with `QUOTA_EXCEEDED`,
because `checkStorageQuota` tests strict less-than. -/
theorem saveWidgets_quota_exact_cex :
    (saveWidgets ⟨true, none, none⟩
        ((List.replicate 1027 (⟨[119], List.replicate 5000 97, 0, 0⟩ : WidgetData) ++
          [(⟨[119], List.replicate 3023 97, 0, 0⟩ : WidgetData)]).map mkWidget) 0).2 =
      .error ⟨.quotaExceeded, true⟩ ∧
    jsonSize (jsToJson (.arr
      (((List.replicate 1027 (⟨[119], List.replicate 5000 97, 0, 0⟩ : WidgetData) ++
          [(⟨[119], List.replicate 3023 97, 0, 0⟩ : WidgetData)]).map mkWidget).map validatedElem))) =
      MAX_STORAGE_SIZE := by
  set L := List.replicate 1027 (⟨[119], List.replicate 5000 97, 0, 0⟩ : WidgetData) ++
    [(⟨[119], List.replicate 3023 97, 0, 0⟩ : WidgetData)] with hL
  have hsize : jsonSize (jsToJson (.arr ((L.map mkWidget).map validatedElem))) =
      MAX_STORAGE_SIZE := by
    have hnorm : jsToJson (.arr ((L.map mkWidget).map validatedElem)) =
        .arr (L.map savedJson) := by
      show JsVal.arr (jsToJsonList ((L.map mkWidget).map validatedElem)) = _
      rw [map_saved]
    rw [hnorm, hL, List.map_append, List.map_replicate]
    simp only [List.map_cons, List.map_nil, jsonSize]
    rw [jsonSizeElems_replicate_append,
      jsonSize_savedJson_rep (by omega), jsonSize_savedJson_rep (by omega)]
    norm_num [MAX_STORAGE_SIZE]
  refine ⟨?_, hsize⟩
  have hall : ∀ w ∈ L.map mkWidget, validateWidget w = true := by
    intro w hw
    rw [List.mem_map] at hw
    obtain ⟨d, _, rfl⟩ := hw
    exact validateWidget_mkWidget d
  have hq : checkStorageQuota (jsonSize (jsToJson
      (.arr ((L.map mkWidget).map validatedElem)))) = false := by
    rw [hsize]
    decide
  rw [saveWidgets_quota_result _ _ 0 rfl hall hq]

/-! ## Helper lemmas: updateWidget -/

theorem jsToJsonList_eq_map : ∀ l, jsToJsonList l = l.map jsToJson := by
  intro l
  induction l with
  | nil => rfl
  | cons v rest ih => simp only [jsToJsonList, List.map_cons, ih]

theorem getWidgets_saved (st : StoreState) (ws : List WidgetData)
    (hav : st.available = true)
    (hp : st.primary = some (.jsonText (.arr (ws.map savedJson)))) :
    getWidgets st = .ok (ws.map roundW) := by
  simp only [getWidgets, getWidgetsRaw, hav, if_true, hp, parseStoredWidgets]
  rw [parseWidgetList_saved]

/-- `saveWidgets` on any all-valid list under the quota. -/
theorem saveWidgets_valid_general (st : StoreState) (ws : List JsVal) (now : Nat)
    (hav : st.available = true) (hvalid : ∀ w ∈ ws, validateWidget w = true)
    (hq : checkStorageQuota (jsonSize (jsToJson (.arr (ws.map validatedElem)))) = true) :
    saveWidgets st ws now =
      ({ st with
          backup := some (.jsonText (jsToJson (backupRecord (ws.map validatedElem) now))),
          primary := some (.jsonText (jsToJson (.arr (ws.map validatedElem)))) }, .ok ()) := by
  have hany : ws.any (fun w => !validateWidget w) = false := by
    rw [List.any_eq_false]
    intro w hw
    simp [hvalid w hw]
  simp [saveWidgets, hav, hany, hq]

theorem findIdx?_append_first {p : JsVal → Bool} :
    ∀ (l₁ : List JsVal) (x : JsVal) (l₂ : List JsVal) (i : Nat),
      (∀ v ∈ l₁, p v = false) → p x = true →
      List.findIdx? p (l₁ ++ x :: l₂) i = some (i + l₁.length) := by
  intro l₁
  induction l₁ with
  | nil =>
    intro x l₂ i h hx
    simp [List.findIdx?_cons, hx]
  | cons a rest ih =>
    intro x l₂ i h hx
    rw [List.cons_append, List.findIdx?_cons, if_neg (by simp [h a (by simp)]),
      ih x l₂ (i + 1) (fun v hv => h v (by simp [hv])) hx]
    simp only [List.length_cons]
    congr 1
    omega

theorem getD_append_length : ∀ (l₁ : List JsVal) (x : JsVal) (l₂ : List JsVal) (d : JsVal),
    (l₁ ++ x :: l₂).getD l₁.length d = x := by
  intro l₁
  induction l₁ with
  | nil => intro x l₂ d; simp [List.getD]
  | cons a rest ih =>
    intro x l₂ d
    simp only [List.cons_append, List.length_cons, List.getD]
    simpa [List.getD] using ih x l₂ d

theorem set_append_length : ∀ (l₁ : List JsVal) (x y : JsVal) (l₂ : List JsVal),
    (l₁ ++ x :: l₂).set l₁.length y = l₁ ++ y :: l₂ := by
  intro l₁
  induction l₁ with
  | nil => intro x y l₂; simp
  | cons a rest ih =>
    intro x y l₂
    simp only [List.cons_append, List.length_cons, List.set_cons_succ, ih]

theorem validateWidget_roundW (p : WidgetData) : validateWidget (roundW p) = true := rfl

/-- The in-place update the code performs on the loaded widget is the
caller-shape widget with once-sanitised content and refreshed
`updatedAt`. -/
theorem updated_roundW (wd : WidgetData) (s : JStr) (now : Nat) :
    setProp (setProp (roundW wd) keyContent (.str s)) keyUpdatedAt (.date (some now)) =
      mkWidget ⟨wd.wid, s, wd.createdAt, now⟩ := rfl

theorem jsToJson_validated_roundW {p : WidgetData}
    (hfix : sanitizeContent p.wcontent = p.wcontent) :
    jsToJson (validatedElem (roundW p)) = savedJson p := by
  have h : jsToJson (validatedElem (roundW p)) = .obj [(keyId, .str p.wid),
      (keyContent, .str (sanitizeContent (sanitizeContent (sanitizeContent p.wcontent)))),
      (keyCreatedAt, .str (encodeDate p.createdAt)),
      (keyUpdatedAt, .str (encodeDate p.updatedAt))] := rfl
  rw [h, hfix, hfix]
  unfold savedJson
  rw [hfix]

theorem map_jv_roundW {l : List WidgetData}
    (hfix : ∀ p ∈ l, sanitizeContent p.wcontent = p.wcontent) :
    ((l.map roundW).map validatedElem).map jsToJson = l.map savedJson := by
  induction l with
  | nil => rfl
  | cons p rest ih =>
    simp only [List.map_cons]
    rw [jsToJson_validated_roundW (hfix p (by simp)),
      ih (fun q hq => hfix q (by simp [hq]))]

/-- The behaviour of `updateWidget` when the id matches the widget `wd`
sitting between `pre` and `post` in the persisted (store-written,
sanitisation-fixed) sequence: the call returns the updated widget with
once-sanitised content and `updatedAt := now`, and persists the
sequence with only that widget replaced — its stored content being the
sanitised content sanitised once more by the save path. -/
theorem updateWidget_found (st : StoreState) (pre : List WidgetData) (wd : WidgetData)
    (post : List WidgetData) (id c : JStr) (now : Nat)
    (hav : st.available = true)
    (hp : st.primary = some (.jsonText (.arr ((pre ++ wd :: post).map savedJson))))
    (hfix : ∀ p ∈ pre ++ wd :: post, sanitizeContent p.wcontent = p.wcontent)
    (hid : id.isEmpty = false)
    (hpre : ∀ p ∈ pre, p.wid ≠ id)
    (hwd : wd.wid = id)
    (hq : checkStorageQuota (jsonSize (.arr ((pre ++
      (⟨wd.wid, sanitizeContent c, wd.createdAt, now⟩ : WidgetData) :: post).map savedJson))) = true) :
    (updateWidget st id c now).2 =
      .ok (some (mkWidget ⟨wd.wid, sanitizeContent c, wd.createdAt, now⟩)) ∧
    (updateWidget st id c now).1.primary =
      some (.jsonText (.arr ((pre ++
        (⟨wd.wid, sanitizeContent c, wd.createdAt, now⟩ : WidgetData) :: post).map savedJson))) := by
  have hget := getWidgets_saved st (pre ++ wd :: post) hav hp
  have hsplit : (pre ++ wd :: post).map roundW =
      pre.map roundW ++ roundW wd :: post.map roundW := by
    rw [List.map_append, List.map_cons]
  have hfind : List.findIdx? (fun w =>
      match getProp w keyId with | .str s => s == id | _ => false)
      ((pre ++ wd :: post).map roundW) 0 = some pre.length := by
    rw [hsplit, findIdx?_append_first]
    · simp
    · intro v hv
      rw [List.mem_map] at hv
      obtain ⟨p, hp', rfl⟩ := hv
      have : getProp (roundW p) keyId = .str p.wid := rfl
      rw [this]
      simp [hpre p hp']
    · have : getProp (roundW wd) keyId = .str wd.wid := rfl
      rw [this]
      simp [hwd]
  have hlen : pre.length = (pre.map roundW).length := by rw [List.length_map]
  have hgetD : ((pre ++ wd :: post).map roundW).getD pre.length .null = roundW wd := by
    rw [hsplit, hlen, getD_append_length]
  have hset : ((pre ++ wd :: post).map roundW).set pre.length
      (mkWidget ⟨wd.wid, sanitizeContent c, wd.createdAt, now⟩) =
      pre.map roundW ++ mkWidget ⟨wd.wid, sanitizeContent c, wd.createdAt, now⟩ ::
        post.map roundW := by
    rw [hsplit, hlen, set_append_length]
  have hfix_pre : ∀ p ∈ pre, sanitizeContent p.wcontent = p.wcontent :=
    fun p hp' => hfix p (by simp [hp'])
  have hfix_post : ∀ p ∈ post, sanitizeContent p.wcontent = p.wcontent :=
    fun p hp' => hfix p (by simp [hp'])
  have hjson : jsToJson (.arr ((pre.map roundW ++
      mkWidget ⟨wd.wid, sanitizeContent c, wd.createdAt, now⟩ ::
        post.map roundW).map validatedElem)) =
      .arr ((pre ++ (⟨wd.wid, sanitizeContent c, wd.createdAt, now⟩ : WidgetData) :: post).map savedJson) := by
    show JsVal.arr (jsToJsonList _) = _
    rw [jsToJsonList_eq_map, List.map_append, List.map_append, List.map_cons, List.map_cons,
      List.map_append, List.map_cons, map_jv_roundW hfix_pre, map_jv_roundW hfix_post]
    rfl
  have hvalid : ∀ w ∈ pre.map roundW ++
      mkWidget ⟨wd.wid, sanitizeContent c, wd.createdAt, now⟩ :: post.map roundW,
      validateWidget w = true := by
    intro w hw
    rw [List.mem_append, List.mem_cons] at hw
    rcases hw with hw | hw | hw
    · rw [List.mem_map] at hw
      obtain ⟨p, _, rfl⟩ := hw
      exact validateWidget_roundW p
    · rw [hw]; rfl
    · rw [List.mem_map] at hw
      obtain ⟨p, _, rfl⟩ := hw
      exact validateWidget_roundW p
  have hsave := saveWidgets_valid_general st
    (pre.map roundW ++ mkWidget ⟨wd.wid, sanitizeContent c, wd.createdAt, now⟩ ::
      post.map roundW) now hav hvalid (by rw [hjson]; exact hq)
  unfold updateWidget
  rw [hid]
  simp only [Bool.false_eq_true, if_false]
  rw [hget]
  simp only [hfind, hgetD, updated_roundW, hset, hsave, hjson]
  exact ⟨by trivial, by trivial⟩

theorem findIdx?_none {p : JsVal → Bool} :
    ∀ (l : List JsVal) (i : Nat), (∀ v ∈ l, p v = false) →
      List.findIdx? p l i = none := by
  intro l
  induction l with
  | nil => intro i h; rfl
  | cons a rest ih =>
    intro i h
    rw [List.findIdx?_cons, if_neg (by simp [h a (by simp)])]
    exact ih (i + 1) (fun v hv => h v (by simp [hv]))

/-- `updateWidget` when no persisted widget has the given id. -/
theorem updateWidget_notfound (st : StoreState) (ws : List WidgetData)
    (id c : JStr) (now : Nat)
    (hav : st.available = true)
    (hp : st.primary = some (.jsonText (.arr (ws.map savedJson))))
    (hid : id.isEmpty = false)
    (hnone : ∀ p ∈ ws, p.wid ≠ id) :
    updateWidget st id c now = (st, .ok none) := by
  have hget := getWidgets_saved st ws hav hp
  have hfind : List.findIdx? (fun w =>
      match getProp w keyId with | .str s => s == id | _ => false)
      (ws.map roundW) 0 = none := by
    apply findIdx?_none
    intro v hv
    rw [List.mem_map] at hv
    obtain ⟨q, hq', rfl⟩ := hv
    have hprop : getProp (roundW q) keyId = .str q.wid := rfl
    rw [hprop]
    simp [hnone q hq']
  unfold updateWidget
  rw [hid]
  simp only [Bool.false_eq_true, if_false]
  rw [hget]
  simp only [hfind]

/-! ## Claim C6 -/

/-- C6 (amended): for a persisted sequence written by the store (every
content a sanitisation fixed point) containing a first widget matching
the non-empty id, `updateWidget` returns the updated widget carrying
the once-sanitised new content and `updatedAt := now` with id and
`createdAt` unchanged, and persists the sequence with every other
widget unchanged — but the persisted content of the updated widget is
the sanitised content sanitised once more by the save path
(`savedJson` re-sanitises), which differs from the returned content
when sanitisation truncates at a space (see the counterexample).  When
no widget matches, it returns `none`, not an error, and the state is
unchanged. -/
theorem updateWidget_first_match :
    (∀ (st : StoreState) (pre : List WidgetData) (wd : WidgetData) (post : List WidgetData)
        (id c : JStr) (now : Nat),
      st.available = true →
      st.primary = some (.jsonText (.arr ((pre ++ wd :: post).map savedJson))) →
      (∀ p ∈ pre ++ wd :: post, sanitizeContent p.wcontent = p.wcontent) →
      id.isEmpty = false →
      (∀ p ∈ pre, p.wid ≠ id) →
      wd.wid = id →
      checkStorageQuota (jsonSize (.arr ((pre ++
        (⟨wd.wid, sanitizeContent c, wd.createdAt, now⟩ : WidgetData) :: post).map savedJson))) = true →
      (updateWidget st id c now).2 =
        .ok (some (mkWidget ⟨wd.wid, sanitizeContent c, wd.createdAt, now⟩)) ∧
      (updateWidget st id c now).1.primary =
        some (.jsonText (.arr ((pre ++
          (⟨wd.wid, sanitizeContent c, wd.createdAt, now⟩ : WidgetData) :: post).map savedJson)))) ∧
    (∀ (st : StoreState) (ws : List WidgetData) (id c : JStr) (now : Nat),
      st.available = true →
      st.primary = some (.jsonText (.arr (ws.map savedJson))) →
      id.isEmpty = false →
      (∀ p ∈ ws, p.wid ≠ id) →
      updateWidget st id c now = (st, .ok none)) :=
  ⟨fun st pre wd post id c now hav hp hfix hid hpre hwd hq =>
    updateWidget_found st pre wd post id c now hav hp hfix hid hpre hwd hq,
   fun st ws id c now hav hp hid hnone =>
    updateWidget_notfound st ws id c now hav hp hid hnone⟩

/-- C6 witness: a one-widget store updated at its own id, and probed at
a missing id. -/
theorem updateWidget_first_match_witness :
    (updateWidget ⟨true, some (.jsonText (.arr
        (([⟨[119], [120], 3, 3⟩] : List WidgetData).map savedJson))), none⟩
      [119] [104, 105] 9).2 =
      .ok (some (mkWidget ⟨[119], sanitizeContent [104, 105], 3, 9⟩)) ∧
    updateWidget ⟨true, some (.jsonText (.arr
        (([⟨[119], [120], 3, 3⟩] : List WidgetData).map savedJson))), none⟩
      [122] [104] 9 =
      (⟨true, some (.jsonText (.arr
        (([⟨[119], [120], 3, 3⟩] : List WidgetData).map savedJson))), none⟩, .ok none) := by
  constructor
  · exact (updateWidget_first_match.1 _ [] ⟨[119], [120], 3, 3⟩ [] [119] [104, 105] 9
      rfl rfl
      (by intro p hp
          have h' : p = ⟨[119], [120], 3, 3⟩ := by simpa using hp
          rw [h']; decide)
      rfl
      (by intro p hp; simp at hp)
      rfl (by decide)).1
  · exact updateWidget_first_match.2 _ [⟨[119], [120], 3, 3⟩] [122] [104] 9 rfl rfl rfl
      (by intro p hp
          have h' : p = ⟨[119], [120], 3, 3⟩ := by simpa using hp
          rw [h']; decide)

/-- C6 counterexample: updating with `'a' * 4999 ++ " b"` returns a
widget whose content is `'a' * 4999 ++ " "` but persists
`'a' * 4999`: the persisted content is not the sanitised content the
call returned, because the save path re-sanitises. -/
theorem updateWidget_persisted_content_cex :
    (updateWidget ⟨true, some (.jsonText (.arr
        (([⟨[119], [120], 3, 3⟩] : List WidgetData).map savedJson))), none⟩
      [119] (List.replicate 4999 97 ++ [32, 98]) 7).2 =
      .ok (some (mkWidget ⟨[119], List.replicate 4999 97 ++ [32], 3, 7⟩)) ∧
    (updateWidget ⟨true, some (.jsonText (.arr
        (([⟨[119], [120], 3, 3⟩] : List WidgetData).map savedJson))), none⟩
      [119] (List.replicate 4999 97 ++ [32, 98]) 7).1.primary =
      some (.jsonText (.arr [.obj [(keyId, .str [119]),
        (keyContent, .str (List.replicate 4999 97)),
        (keyCreatedAt, .str (encodeDate 3)),
        (keyUpdatedAt, .str (encodeDate 7))]])) ∧
    List.replicate 4999 97 ≠ List.replicate 4999 97 ++ [32] := by
  have hsaved : savedJson ⟨[119], List.replicate 4999 97 ++ [32], 3, 7⟩ =
      .obj [(keyId, .str [119]), (keyContent, .str (List.replicate 4999 97)),
        (keyCreatedAt, .str (encodeDate 3)), (keyUpdatedAt, .str (encodeDate 7))] := by
    simp only [savedJson]
    rw [sanitize_rep_space]
  have hq : checkStorageQuota (jsonSize (.arr ((([] : List WidgetData) ++
      (⟨[119], sanitizeContent (List.replicate 4999 97 ++ [32, 98]), 3, 7⟩ : WidgetData) ::
        ([] : List WidgetData)).map savedJson))) = true := by
    simp only [List.nil_append, List.map_cons, List.map_nil]
    rw [sanitize_rep_space_b, hsaved]
    simp only [jsonSize, jsonSizeElems, jsonSizeFields]
    rw [strBytes_rep97]
    simp only [show strBytes (encodeDate 3) = 24 from by decide,
      show strBytes (encodeDate 7) = 24 from by decide,
      show strBytes keyId = 2 from by decide,
      show strBytes keyContent = 7 from by decide,
      show strBytes keyCreatedAt = 9 from by decide,
      show strBytes keyUpdatedAt = 9 from by decide,
      show strBytes [119] = 1 from by decide]
    decide
  obtain ⟨h1, h2⟩ := updateWidget_found
    ⟨true, some (.jsonText (.arr (([⟨[119], [120], 3, 3⟩] : List WidgetData).map savedJson))), none⟩
    [] ⟨[119], [120], 3, 3⟩ [] [119] (List.replicate 4999 97 ++ [32, 98]) 7
    rfl rfl
    (by intro p hp
        have h' : p = ⟨[119], [120], 3, 3⟩ := by simpa using hp
        rw [h']; decide)
    rfl
    (by intro p hp; simp at hp)
    rfl hq
  rw [sanitize_rep_space_b] at h1 h2
  refine ⟨h1, ?_, ?_⟩
  · rw [h2]
    simp only [List.nil_append, List.map_cons, List.map_nil, hsaved]
  · intro he
    have hl := congrArg List.length he
    simp only [List.length_append, List.length_replicate, List.length_cons,
      List.length_nil] at hl
    omega

end WidgetStore
